import Mathlib

/-!
Verification of the line-counter utility (`line_counter.py`).

The program is modelled with a shallow embedding:

* Python strings are `List Char` (`Str`); Python's `str.lower` is
  per-character ASCII lowering, and string comparison is code-point
  lexicographic order (`lexLe`).
* A file on disk is a `FileEnt`: its name, the result of probing its size
  (`none` models an `OSError` from `os.path.getsize`), and the text obtained
  by opening it with `encoding='utf-8', errors='ignore'` after universal
  newline translation (`none` models an `IOError` on open/read; with
  `errors='ignore'` a decode error cannot occur, so success yields a text in
  which every line terminator is `'\n'`).
* A directory tree is an `FSTree`; the listing order of the `files` and
  `subdirs` lists models the order in which `os.walk` enumerates entries.
* Python's `sorted`, which is a stable sort, is modelled by
  `List.insertionSort`, which is also stable; all key functions of the
  source are translated exactly.
* `float` sizes: `size_kb = size / 1024` is exact in IEEE 754 binary64 for
  every realistic size (division by a power of two), so `size_kb` is
  modelled as the exact rational, and `f"{x:.1f}"` as correctly-rounded
  decimal formatting with ties to even, which is CPython's behaviour.
-/

abbrev Str := List Char

/-- Python `str.lower` on a single character (ASCII range, which covers every
character the program compares). -/
def lowerChar (c : Char) : Char :=
  if 'A' ≤ c ∧ c ≤ 'Z' then Char.ofNat (c.toNat + 32) else c

/-- Python `str.lower`. -/
def lowerStr (s : Str) : Str := s.map lowerChar

/-- Python string comparison `a <= b`: lexicographic on code points. -/
def lexLe : Str → Str → Bool
  | [], _ => true
  | _ :: _, [] => false
  | a :: as, b :: bs =>
    if a.toNat < b.toNat then true
    else if b.toNat < a.toNat then false
    else lexLe as bs

/-- One file as the walk encounters it.  `size = none` models an `OSError`
from `os.path.getsize`; `text = none` models an `IOError` when opening or
reading the file. -/
structure FileEnt where
  name : Str
  size : Option Nat
  text : Option Str
deriving DecidableEq

/-- One entry of the `file_info` list built by `get_file_info`. -/
structure FileRecord where
  path : Str
  lines : Nat
  size_kb : ℚ
  ext : Str
deriving DecidableEq

/-- A directory: the files it holds and its named subdirectories, in the
order `os.walk` lists them. -/
inductive FSTree where
  | node (files : List FileEnt) (subdirs : List (Str × FSTree))

/-- Number of lines Python's text-mode iteration yields: one line per
newline character, plus a final line when the text ends without one. -/
def pyLineCount : Str → Nat
  | [] => 0
  | c :: cs =>
    if c = '\n' then 1 + pyLineCount cs
    else if cs = [] then 1 else pyLineCount cs

/-- Function `count_lines` from the source: the number of lines of the decoded text,
or 0 when the file cannot be opened or read. -/
def count_lines (f : FileEnt) : Nat :=
  match f.text with
  | none => 0
  | some t => pyLineCount t

/-- Strip the leading dots of a filename (they never start an extension). -/
def dropLeadingDots : Str → Str
  | [] => []
  | c :: rest => if c = '.' then dropLeadingDots rest else c :: rest

/-- The suffix starting at the last `'.'` of `s`, or `[]` when `s` has no
dot. -/
def extAfterLastDot : Str → Str
  | [] => []
  | c :: rest =>
    match extAfterLastDot rest with
    | [] => if c = '.' then c :: rest else []
    | e => e

/-- The extension part of `os.path.splitext`: everything from the last dot
of the basename, except that dots leading the basename do not open an
extension. -/
def splitextExt (s : Str) : Str := extAfterLastDot (dropLeadingDots s)

/-- Constant `DEFAULT_SKIP_DIRS` from the source. -/
def DEFAULT_SKIP_DIRS : List Str :=
  ["__pycache__".data, ".git".data, "node_modules".data, "venv".data,
   "env".data, ".venv".data, ".env".data, "logs".data, "!backups".data]

/-- Constant `DEFAULT_SKIP_EXTENSIONS_BY_CATEGORY` from the source, in insertion
order of the Python dict literal. -/
def DEFAULT_SKIP_EXTENSIONS_BY_CATEGORY : List (Str × List Str) :=
  [("Document Files".data,
    [".md".data, ".pdf".data, ".doc".data, ".docx".data, ".xls".data,
     ".xlsx".data, ".ppt".data, ".pptx".data, ".odt".data, ".ods".data,
     ".odp".data, ".rtf".data, ".txt".data, ".csv".data, ".tsv".data]),
   ("Database Files".data,
    [".db".data, ".sqlite".data, ".sqlite3".data, ".db3".data, ".mdb".data,
     ".accdb".data, ".sql".data, ".frm".data, ".myd".data, ".myi".data]),
   ("Image Files".data,
    [".jpg".data, ".jpeg".data, ".png".data, ".gif".data, ".bmp".data,
     ".tiff".data, ".tif".data, ".webp".data, ".svg".data, ".ico".data,
     ".psd".data, ".ai".data, ".eps".data, ".raw".data, ".heic".data,
     ".heif".data, ".indd".data, ".cr2".data, ".nef".data, ".arw".data,
     ".dng".data]),
   ("Archive/Compressed Files".data,
    [".zip".data, ".rar".data, ".7z".data, ".tar".data, ".gz".data,
     ".bz2".data, ".xz".data]),
   ("Backup and Cache Files".data,
    [".bak".data, ".tmp".data, ".swp".data, ".swo".data, "~".data]),
   ("Binary/Compiled Files".data,
    [".pyc".data, ".pyo".data, ".pyd".data, ".so".data, ".dll".data,
     ".exe".data, ".class".data]),
   ("System and Config Files".data,
    [".ini".data, ".cfg".data, ".conf".data, ".log".data, ".lock".data,
     ".lnk".data])]

/-- The flattened extension set. -/
def DEFAULT_SKIP_EXTENSIONS : List Str :=
  (DEFAULT_SKIP_EXTENSIONS_BY_CATEGORY.map (fun p => p.2)).flatten

/-- Join path components with `'/'` (the source builds `rel_path` with
`os.path.relpath` and normalises separators to `'/'`). -/
def pathJoin (comps : List Str) : Str :=
  match comps with
  | [] => []
  | [x] => x
  | x :: xs => x ++ '/' :: pathJoin xs

/-- The per-file body of the walk loop in `get_file_info`: the hidden-file /
sentinel-name test, the lowercased-extension test, the size probe, the line
count, and the record construction, in source order.  `pfx` is the list of
directory components leading from the scan root to the file's directory. -/
def fileRecord (se : List Str) (pfx : List Str) (f : FileEnt) : Option FileRecord :=
  if f.name.head? = some '.' ∨ f.name = "desktop.ini".data ∨ f.name = "__init__.py".data then
    none
  else
    let ext := lowerStr (splitextExt f.name)
    if ext ∈ se then none
    else
      match f.size with
      | none => none
      | some sz =>
        some { path := pathJoin (pfx ++ [f.name])
               lines := count_lines f
               size_kb := mkRat sz 1024
               ext := if ext = [] then "none".data else ext.drop 1 }

mutual

/-- Traversal `os.walk(startpath, topdown=True)` as used by `get_file_info`: the
current directory's files are processed first, then the walk descends, in
listing order, into exactly the subdirectories whose name is not in
`skip_dirs` (the in-place pruning `dirs[:] = [d for d in dirs if d not in
skip_dirs]`). -/
def walkTree (sd se : List Str) (pfx : List Str) : FSTree → List FileRecord
  | .node files subdirs =>
    files.filterMap (fileRecord se pfx) ++ walkSubs sd se pfx subdirs

/-- Walk the (not yet pruned) subdirectory list: a subdirectory whose name
is in `sd` is pruned and contributes nothing. -/
def walkSubs (sd se : List Str) (pfx : List Str) : List (Str × FSTree) → List FileRecord
  | [] => []
  | (d, t) :: rest =>
    (if d ∈ sd then [] else walkTree sd se (pfx ++ [d]) t) ++ walkSubs sd se pfx rest

end

/-- The final `sorted(file_info, key=lambda x: x['path'].lower())` of
`get_file_info`; Python's sort is stable, as is insertion sort. -/
def sortByLowerPath (l : List FileRecord) : List FileRecord :=
  List.insertionSort (fun a b => lexLe (lowerStr a.path) (lowerStr b.path) = true) l

/-- Function `get_file_info` from the source. -/
def get_file_info (sd se : List Str) (t : FSTree) : List FileRecord :=
  sortByLowerPath (walkTree sd se [] t)

/-- Decimal digits of `n`, least significant first (fuel-based so that the
recursion is structural and kernel-evaluable; the fuel `n + 1` always
suffices since the argument strictly shrinks). -/
def digitsLEAux : Nat → Nat → List Char
  | 0, _ => []
  | fuel + 1, n => if n = 0 then [] else Char.ofNat (48 + n % 10) :: digitsLEAux fuel (n / 10)

/-- Decimal digits of `n`, least significant first. -/
def digitsLE (n : Nat) : List Char :=
  if n = 0 then ['0'] else digitsLEAux (n + 1) n

/-- Insert a `','` after every third digit (input and output are least
significant first). -/
def groupLE : List Char → List Char
  | d1 :: d2 :: d3 :: d4 :: rest => d1 :: d2 :: d3 :: ',' :: groupLE (d4 :: rest)
  | l => l

/-- Python `f"{n:,}"`: decimal digits grouped in threes by commas. -/
def formatCommas (n : Nat) : Str := (groupLE (digitsLE n)).reverse

/-- Python `str(n)` for a natural number. -/
def natToStr (n : Nat) : Str := (digitsLE n).reverse

/-- The value `10 * q` rounded to the nearest integer, ties to even, computed on the
numerator and denominator (for a positive denominator, `Int.ediv` is floor
division and `Int.emod` the nonnegative remainder). -/
def roundHalfEvenTenths (q : ℚ) : ℤ :=
  let n10 : ℤ := q.num * 10
  let d : ℤ := (q.den : ℤ)
  let fl := Int.ediv n10 d
  let r := Int.emod n10 d
  if 2 * r < d then fl
  else if d < 2 * r then fl + 1
  else if Int.emod fl 2 = 0 then fl else fl + 1

/-- Python `f"{x:.1f}"` for a nonnegative value: the exact value rounded to
one decimal place, ties to even (CPython formats floats by correctly
rounding the exact binary value). -/
def format1f (q : ℚ) : Str :=
  let m := (roundHalfEvenTenths q).toNat
  natToStr (m / 10) ++ '.' :: natToStr (m % 10)

/-- Python `'sep'.join(parts)`. -/
def joinSep (sep : Str) : List Str → Str
  | [] => []
  | [x] => x
  | x :: xs => x ++ sep ++ joinSep sep xs

/-- The sort inside `generate_markdown_table`:
`sorted(file_info, key=lambda x: (-x['lines'], x['path'].lower()))`. -/
def fullKeyLe (a b : FileRecord) : Bool :=
  if a.lines = b.lines then lexLe (lowerStr a.path) (lowerStr b.path)
  else decide (b.lines < a.lines)

/-- The full listing in report order. -/
def sortedFull (file_info : List FileRecord) : List FileRecord :=
  List.insertionSort (fun a b => fullKeyLe a b = true) file_info

/-- One row of the full listing:
`f"| `{path}` | {ext} | {lines:,} | {size_kb:.1f} |"`. -/
def mdRow (r : FileRecord) : Str :=
  "| `".data ++ r.path ++ "` | ".data ++ r.ext ++ " | ".data ++
  formatCommas r.lines ++ " | ".data ++ format1f r.size_kb ++ " |".data

/-- The `table` list built by `generate_markdown_table`: two header lines,
then one row per record in sorted order. -/
def mdTableLines (file_info : List FileRecord) : List Str :=
  "| File | Extension | Lines | Size (KB) |".data ::
  "|------|-----------|-------|-----------|".data ::
  (sortedFull file_info).map mdRow

/-- Function `generate_markdown_table` from the source. -/
def generate_markdown_table (file_info : List FileRecord) : Str :=
  if file_info = [] then "*No files found matching the criteria.*".data
  else joinSep ['\n'] (mdTableLines file_info)

/-- Header cells of `generate_file_table`. -/
def tableHeaderCells (show_rank : Bool) : List Str :=
  if show_rank then ["Rank".data, "File".data, "Lines".data, "Size (KB)".data]
  else ["File".data, "Lines".data, "Size (KB)".data]

/-- One data row of `generate_file_table`, where `i` is the 1-based rank:
`"| " + " | ".join(row) + " |"` with `row` the optional rank, the
backquoted path, the comma-grouped line count and the 1-decimal size. -/
def fileRow (show_rank : Bool) (i : Nat) (r : FileRecord) : Str :=
  let row := (if show_rank then [natToStr i] else []) ++
    ["`".data ++ r.path ++ "`".data, formatCommas r.lines, format1f r.size_kb]
  "| ".data ++ joinSep " | ".data row ++ " |".data

/-- Data rows of `generate_file_table` starting at rank `i`
(`enumerate(files, 1)`). -/
def fileRowsFrom (show_rank : Bool) (i : Nat) : List FileRecord → List Str
  | [] => []
  | r :: rs => fileRow show_rank i r :: fileRowsFrom show_rank (i + 1) rs

/-- The `table` list built by `generate_file_table`: a header line, a
separator line, then the ranked rows. -/
def fileTableLines (files : List FileRecord) (show_rank : Bool) : List Str :=
  ("| ".data ++ joinSep " | ".data (tableHeaderCells show_rank) ++ " |".data) ::
  ("|".data ++ joinSep "|".data ((tableHeaderCells show_rank).map (fun _ => "------".data)) ++ "|".data) ::
  fileRowsFrom show_rank 1 files

/-- Function `generate_file_table` from the source. -/
def generate_file_table (files : List FileRecord) (show_rank : Bool) : Str :=
  if files = [] then "*No files found matching the criteria.*".data
  else joinSep ['\n'] (fileTableLines files show_rank)

/-- The filter `[f for f in file_info if f['lines'] > 0]`. -/
def nonEmptyFiles (file_info : List FileRecord) : List FileRecord :=
  file_info.filter (fun f => 0 < f.lines)

/-- The sort `sorted(non_empty_files, key=lambda x: x['lines'], reverse=True)`:
stable descending sort on the line count alone. -/
def topSorted (l : List FileRecord) : List FileRecord :=
  List.insertionSort (fun a b => decide (b.lines ≤ a.lines) = true) l

/-- The sort `sorted(non_empty_files, key=lambda x: x['lines'])`: stable ascending
sort on the line count alone. -/
def bottomSorted (l : List FileRecord) : List FileRecord :=
  List.insertionSort (fun a b => decide (a.lines ≤ b.lines) = true) l

/-- Function `generate_top_files_table` from the source. -/
def generate_top_files_table (file_info : List FileRecord) (top_n : Nat) : Str :=
  if file_info = [] then "*No files found matching the criteria.*".data
  else
    let non_empty := nonEmptyFiles file_info
    if non_empty = [] then "*No non-empty files found.*".data
    else generate_file_table ((topSorted non_empty).take top_n) true

/-- Function `generate_bottom_files_table` from the source. -/
def generate_bottom_files_table (file_info : List FileRecord) (bottom_n : Nat) : Str :=
  if file_info = [] then "*No files found matching the criteria.*".data
  else
    let non_empty := nonEmptyFiles file_info
    if non_empty = [] then "*No non-empty files found.*".data
    else generate_file_table ((bottomSorted non_empty).take bottom_n) true

/-- Python `sorted` on plain strings (code-point order on `str`). -/
def sortStrs (l : List Str) : List Str :=
  List.insertionSort (fun a b => lexLe a b = true) l

/-- Python `sorted` of the category association list by category name. -/
def sortCategories (l : List (Str × List Str)) : List (Str × List Str) :=
  List.insertionSort (fun a b => lexLe a.1 b.1 = true) l

/-- Wrap a string in markdown backquotes. -/
def backquote (s : Str) : Str := "`".data ++ s ++ "`".data

/-- The per-category lines of `generate_exclusions_list`. -/
def categoryLines : List (Str × List Str) → List Str
  | [] => []
  | (cat, exts) :: rest =>
    ("### ".data ++ cat) ::
    joinSep ", ".data ((sortStrs exts).map backquote) ::
    [] :: categoryLines rest

/-- Function `generate_exclusions_list` from the source. -/
def generate_exclusions_list : Str :=
  joinSep ['\n'] (
    ["## Excluded File Types and Directories".data, []] ++
    categoryLines (sortCategories DEFAULT_SKIP_EXTENSIONS_BY_CATEGORY) ++
    ["### Excluded Directories".data,
     joinSep ", ".data ((sortStrs DEFAULT_SKIP_DIRS).map backquote),
     "\n*Note: The scan also excludes hidden files (names starting with a `.period` ), `__init__.py`, and `desktop.ini` files.*".data])

/-- Function `generate_report` from the source. -/
def generate_report (start_path : Str) (file_info : List FileRecord) (top_n : Nat) : Str :=
  joinSep ['\n']
    ["# Line Count Report".data,
     "*Generated at: `".data ++ start_path ++ "`*".data,
     [],
     "## File Statistics".data,
     "- **Total files analyzed:** ".data ++ formatCommas file_info.length,
     "- **Total lines of code:** ".data ++ formatCommas (file_info.map (fun f => f.lines)).sum,
     [],
     "## Largest Files".data,
     "*Top ".data ++ natToStr top_n ++ " files by line count*".data,
     [],
     generate_top_files_table file_info top_n,
     [],
     "---".data,
     [],
     "## Smallest Files".data,
     "*Top 5 smallest non-empty files*".data,
     [],
     generate_bottom_files_table file_info 5,
     [],
     "---".data,
     [],
     "## Complete File List".data,
     "*Sorted by line count (descending), then by filename*".data,
     [],
     generate_markdown_table file_info,
     [],
     "---".data,
     [],
     generate_exclusions_list]

/-- Function `main` from the source, as a function of the facts the environment
decides: whether the resolved path is a directory, the tree under it, and
whether the output file is writable.  The first component is the sequence
of printed messages, the second the content written to the output file
(`none` when nothing is written). -/
def mainModel (isDir : Bool) (t : FSTree) (start_path output_path : Str)
    (top_n : Nat) (writeOk : Bool) : List Str × Option Str :=
  if isDir = false then
    (["Error: '".data ++ start_path ++ "' is not a valid directory.".data], none)
  else
    let analyzing := "Analyzing files in: ".data ++ start_path ++ "...".data
    let file_info := get_file_info DEFAULT_SKIP_DIRS DEFAULT_SKIP_EXTENSIONS t
    if file_info = [] then
      ([analyzing, "No files found matching the criteria. Report not generated.".data], none)
    else
      let report := generate_report start_path file_info top_n
      if writeOk then
        ([analyzing, "Report generated successfully: ".data ++ output_path], some report)
      else
        ([analyzing, "Error writing to ".data ++ output_path], none)

theorem charToNat_inj {a b : Char} (h : a.toNat = b.toNat) : a = b :=
  Char.ext (UInt32.toNat.inj h)

theorem lexLe_total : ∀ a b : Str, lexLe a b = true ∨ lexLe b a = true
  | [], _ => by left; rfl
  | _ :: _, [] => by right; rfl
  | a :: as, b :: bs => by
    simp only [lexLe]
    rcases Nat.lt_trichotomy a.toNat b.toNat with h | h | h
    · left; simp [h]
    · have : ¬ a.toNat < b.toNat := by omega
      have : ¬ b.toNat < a.toNat := by omega
      cases lexLe_total as bs with
      | inl ih => left; simp_all
      | inr ih => right; simp_all
    · right; simp [h]

theorem lexLe_trans : ∀ a b c : Str, lexLe a b = true → lexLe b c = true → lexLe a c = true
  | [], _, _ => by intro _ _; rfl
  | _ :: _, [], _ => by intro h; simp [lexLe] at h
  | _ :: _, _ :: _, [] => by intro _ h; simp [lexLe] at h
  | a :: as, b :: bs, c :: cs => by
    intro hab hbc
    simp only [lexLe] at hab hbc ⊢
    rcases Nat.lt_trichotomy a.toNat b.toNat with h1 | h1 | h1 <;>
      rcases Nat.lt_trichotomy b.toNat c.toNat with h2 | h2 | h2
    · simp [show a.toNat < c.toNat by omega]
    · simp [show a.toNat < c.toNat by omega]
    · simp [show ¬ b.toNat < c.toNat by omega, h2] at hbc
    · simp [show a.toNat < c.toNat by omega]
    · have hab' : lexLe as bs = true := by
        simpa [show ¬ a.toNat < b.toNat by omega, show ¬ b.toNat < a.toNat by omega] using hab
      have hbc' : lexLe bs cs = true := by
        simpa [show ¬ b.toNat < c.toNat by omega, show ¬ c.toNat < b.toNat by omega] using hbc
      simp [show ¬ a.toNat < c.toNat by omega, show ¬ c.toNat < a.toNat by omega]
      exact lexLe_trans as bs cs hab' hbc'
    · simp [show ¬ b.toNat < c.toNat by omega, h2] at hbc
    · simp [show ¬ a.toNat < b.toNat by omega, h1] at hab
    · simp [show ¬ a.toNat < b.toNat by omega, h1] at hab
    · simp [show ¬ a.toNat < b.toNat by omega, h1] at hab

theorem lexLe_antisymm : ∀ a b : Str, lexLe a b = true → lexLe b a = true → a = b
  | [], [] => by intro _ _; rfl
  | [], _ :: _ => by intro _ h; simp [lexLe] at h
  | _ :: _, [] => by intro h _; simp [lexLe] at h
  | a :: as, b :: bs => by
    intro hab hba
    simp only [lexLe] at hab hba
    rcases Nat.lt_trichotomy a.toNat b.toNat with h1 | h1 | h1
    · simp_all; omega
    · have hne1 : ¬ a.toNat < b.toNat := by omega
      have hne2 : ¬ b.toNat < a.toNat := by omega
      simp_all
      exact ⟨charToNat_inj h1, lexLe_antisymm as bs hab hba⟩
    · simp_all; omega

instance : IsTotal FileRecord (fun a b => lexLe (lowerStr a.path) (lowerStr b.path) = true) :=
  ⟨fun _ _ => lexLe_total _ _⟩

instance : IsTrans FileRecord (fun a b => lexLe (lowerStr a.path) (lowerStr b.path) = true) :=
  ⟨fun _ _ _ => lexLe_trans _ _ _⟩

theorem fullKeyLe_total (a b : FileRecord) : fullKeyLe a b = true ∨ fullKeyLe b a = true := by
  by_cases h : a.lines = b.lines
  · rcases lexLe_total (lowerStr a.path) (lowerStr b.path) with h' | h'
    · left; unfold fullKeyLe; rw [if_pos h]; exact h'
    · right; unfold fullKeyLe; rw [if_pos h.symm]; exact h'
  · rcases Nat.lt_or_ge a.lines b.lines with h' | h'
    · right; unfold fullKeyLe; rw [if_neg (Ne.symm h)]; exact decide_eq_true h'
    · left; unfold fullKeyLe; rw [if_neg h]; exact decide_eq_true (by omega)

theorem fullKeyLe_trans (a b c : FileRecord) (hab : fullKeyLe a b = true)
    (hbc : fullKeyLe b c = true) : fullKeyLe a c = true := by
  unfold fullKeyLe at hab hbc ⊢
  by_cases h1 : a.lines = b.lines
  · rw [if_pos h1] at hab
    by_cases h2 : b.lines = c.lines
    · rw [if_pos h2] at hbc
      rw [if_pos (h1.trans h2)]
      exact lexLe_trans _ _ _ hab hbc
    · rw [if_neg h2] at hbc
      have hcb : c.lines < b.lines := of_decide_eq_true hbc
      rw [if_neg (by omega : ¬ a.lines = c.lines)]
      exact decide_eq_true (by omega)
  · rw [if_neg h1] at hab
    have hba : b.lines < a.lines := of_decide_eq_true hab
    by_cases h2 : b.lines = c.lines
    · rw [if_neg (by omega : ¬ a.lines = c.lines)]
      exact decide_eq_true (by omega)
    · rw [if_neg h2] at hbc
      have hcb : c.lines < b.lines := of_decide_eq_true hbc
      rw [if_neg (by omega : ¬ a.lines = c.lines)]
      exact decide_eq_true (by omega)

instance : IsTotal FileRecord (fun a b => fullKeyLe a b = true) := ⟨fullKeyLe_total⟩

instance : IsTrans FileRecord (fun a b => fullKeyLe a b = true) := ⟨fullKeyLe_trans⟩

instance : IsTotal FileRecord (fun a b => decide (b.lines ≤ a.lines) = true) :=
  ⟨fun a b => by simp; omega⟩

instance : IsTrans FileRecord (fun a b => decide (b.lines ≤ a.lines) = true) :=
  ⟨fun a b c => by simp; omega⟩

instance : IsTotal FileRecord (fun a b => decide (a.lines ≤ b.lines) = true) :=
  ⟨fun a b => by simp; omega⟩

instance : IsTrans FileRecord (fun a b => decide (a.lines ≤ b.lines) = true) :=
  ⟨fun a b c => by simp; omega⟩

theorem orderedInsert_filter {α : Type} (r : α → α → Prop) [DecidableRel r] (p : α → Bool)
    (hp : ∀ x y, p x = true → p y = true → r x y) (a : α) :
    ∀ l : List α, (List.orderedInsert r a l).filter p =
      if p a then a :: l.filter p else l.filter p
  | [] => by
    rw [List.orderedInsert_nil, List.filter_cons]
  | b :: l => by
    have ih := orderedInsert_filter r p hp a l
    by_cases hr : r a b
    · by_cases hpa : p a = true <;> by_cases hpb : p b = true <;>
        simp [List.orderedInsert, hr, hpa, hpb, List.filter_cons]
    · by_cases hpa : p a = true
      · have hpb : ¬ p b = true := fun h => hr (hp a b hpa h)
        simp [List.orderedInsert, hr, hpa, hpb, List.filter_cons, ih]
      · by_cases hpb : p b = true <;>
          simp [List.orderedInsert, hr, hpa, hpb, List.filter_cons, ih]

theorem insertionSort_filter {α : Type} (r : α → α → Prop) [DecidableRel r] (p : α → Bool)
    (hp : ∀ x y, p x = true → p y = true → r x y) :
    ∀ l : List α, (List.insertionSort r l).filter p = l.filter p
  | [] => rfl
  | a :: l => by
    have step : List.insertionSort r (a :: l) =
        List.orderedInsert r a (List.insertionSort r l) := rfl
    rw [step, orderedInsert_filter r p hp, insertionSort_filter r p hp l, List.filter_cons]

theorem sorted_perm_eq_of_nodup_keys {α κ : Type} (key : α → κ) (le : κ → κ → Bool)
    (hanti : ∀ x y, le x y = true → le y x = true → x = y) :
    ∀ l₁ l₂ : List α, l₁.Perm l₂ →
      l₁.Pairwise (fun a b => le (key a) (key b) = true) →
      l₂.Pairwise (fun a b => le (key a) (key b) = true) →
      (l₁.map key).Nodup → l₁ = l₂
  | [], l₂ => by
    intro hp _ _ _
    exact hp.nil_eq
  | a :: t₁, [] => by
    intro hp _ _ _
    exact absurd hp.symm.nil_eq (by simp)
  | a :: t₁, b :: t₂ => by
    intro hp hs₁ hs₂ hn
    have hn' : key a ∉ t₁.map key ∧ (t₁.map key).Nodup := by
      rw [List.map_cons, List.nodup_cons] at hn
      exact hn
    have hmem : b ∈ a :: t₁ := hp.symm.subset (List.mem_cons_self b t₂)
    rcases (by simpa using hmem : b = a ∨ b ∈ t₁) with rfl | hbt₁
    · have ht : t₁.Perm t₂ := hp.cons_inv
      have := sorted_perm_eq_of_nodup_keys key le hanti t₁ t₂ ht
        (List.pairwise_cons.mp hs₁).2 (List.pairwise_cons.mp hs₂).2 hn'.2
      rw [this]
    · exfalso
      have hkab : le (key a) (key b) = true := (List.pairwise_cons.mp hs₁).1 b hbt₁
      have hamem : a ∈ b :: t₂ := hp.subset (List.mem_cons_self a t₁)
      rcases (by simpa using hamem : a = b ∨ a ∈ t₂) with heq | hat₂
      · exact hn'.1 (heq ▸ List.mem_map_of_mem key hbt₁)
      · have hkba : le (key b) (key a) = true := (List.pairwise_cons.mp hs₂).1 a hat₂
        have hk : key a = key b := hanti _ _ hkab hkba
        exact hn'.1 (hk ▸ List.mem_map_of_mem key hbt₁)

/-- The rejection condition of the per-file filter in `get_file_info`
(lines 94-103 of the source): hidden name, reserved sentinel filename, or
lowercased extension in the excluded-extension set. -/
def rejectFile (se : List Str) (f : FileEnt) : Prop :=
  f.name.head? = some '.' ∨ f.name = "desktop.ini".data ∨ f.name = "__init__.py".data ∨
    lowerStr (splitextExt f.name) ∈ se

instance (se : List Str) (f : FileEnt) : Decidable (rejectFile se f) := by
  unfold rejectFile
  infer_instance

theorem fileRecord_eq_none_of_size_none (se : List Str) (pfx : List Str) (f : FileEnt)
    (h : f.size = none) : fileRecord se pfx f = none := by
  unfold fileRecord
  split
  · rfl
  · simp only
    split
    · rfl
    · rw [h]

theorem fileRecord_eq_some_iff (se : List Str) (pfx : List Str) (f : FileEnt) (sz : Nat)
    (hsz : f.size = some sz) :
    (fileRecord se pfx f).isSome = true ↔ ¬ rejectFile se f := by
  unfold fileRecord rejectFile
  by_cases h1 : f.name.head? = some '.' ∨ f.name = "desktop.ini".data ∨ f.name = "__init__.py".data
  · simp [h1]
    tauto
  · simp only [if_neg h1]
    by_cases h2 : lowerStr (splitextExt f.name) ∈ se
    · simp [h2]
    · simp [h2, hsz]
      tauto

theorem fileRecord_some_elim (se : List Str) (pfx : List Str) (f : FileEnt) (r : FileRecord)
    (h : fileRecord se pfx f = some r) :
    r.path = pathJoin (pfx ++ [f.name]) ∧ r.lines = count_lines f ∧
      (∃ sz : Nat, f.size = some sz ∧ r.size_kb = mkRat sz 1024) := by
  unfold fileRecord at h
  split at h
  · exact absurd h (by simp)
  · simp only at h
    split at h
    · exact absurd h (by simp)
    · split at h
      · exact absurd h (by simp)
      · next sz hs =>
        cases h
        exact ⟨rfl, rfl, sz, hs, rfl⟩

theorem fileRecord_accept (se : List Str) (pfx : List Str) (f : FileEnt) (sz : Nat)
    (hsz : f.size = some sz) (hrej : ¬ rejectFile se f) :
    fileRecord se pfx f =
      some { path := pathJoin (pfx ++ [f.name])
             lines := count_lines f
             size_kb := mkRat sz 1024
             ext := if lowerStr (splitextExt f.name) = [] then "none".data
                    else (lowerStr (splitextExt f.name)).drop 1 } := by
  unfold rejectFile at hrej
  push_neg at hrej
  unfold fileRecord
  rw [if_neg (by tauto)]
  simp only
  rw [if_neg (by tauto), hsz]

mutual

theorem FSTree.indAux (motive : FSTree → Prop) (motiveL : List (Str × FSTree) → Prop)
    (hnode : ∀ files subs, motiveL subs → motive (.node files subs))
    (hnil : motiveL [])
    (hcons : ∀ d t rest, motive t → motiveL rest → motiveL ((d, t) :: rest)) :
    ∀ t, motive t
  | .node files subs =>
    hnode files subs (FSTree.indAuxL motive motiveL hnode hnil hcons subs)

theorem FSTree.indAuxL (motive : FSTree → Prop) (motiveL : List (Str × FSTree) → Prop)
    (hnode : ∀ files subs, motiveL subs → motive (.node files subs))
    (hnil : motiveL [])
    (hcons : ∀ d t rest, motive t → motiveL rest → motiveL ((d, t) :: rest)) :
    ∀ l, motiveL l
  | [] => hnil
  | (d, t) :: rest =>
    hcons d t rest (FSTree.indAux motive motiveL hnode hnil hcons t)
      (FSTree.indAuxL motive motiveL hnode hnil hcons rest)

end

/-- Induction principle for the nested tree type, with a companion motive
for subdirectory lists. -/
theorem FSTree.indPair (motive : FSTree → Prop) (motiveL : List (Str × FSTree) → Prop)
    (hnode : ∀ files subs, motiveL subs → motive (.node files subs))
    (hnil : motiveL [])
    (hcons : ∀ d t rest, motive t → motiveL rest → motiveL ((d, t) :: rest)) :
    (∀ t, motive t) ∧ (∀ l, motiveL l) := by
  constructor
  · exact fun t => FSTree.indAux motive motiveL hnode hnil hcons t
  · exact fun l => FSTree.indAuxL motive motiveL hnode hnil hcons l

/-- A name is free of path separators (true of every real file or directory
name, which cannot contain `'/'`). -/
def noSlash (s : Str) : Bool := s.all (fun c => decide (c ≠ '/'))

mutual

/-- Well-formed tree: every file and directory name is separator-free. -/
def wfTree : FSTree → Bool
  | .node files subs => files.all (fun f => noSlash f.name) && wfSubs subs

/-- Well-formedness of a subdirectory list. -/
def wfSubs : List (Str × FSTree) → Bool
  | [] => true
  | (d, t) :: rest => noSlash d && wfTree t && wfSubs rest

end

/-- Split a string at every occurrence of `sep` (Python `str.split(sep)`). -/
def splitOnChar (sep : Char) : Str → List Str
  | [] => [[]]
  | c :: cs =>
    if c = sep then [] :: splitOnChar sep cs
    else
      match splitOnChar sep cs with
      | [] => [[c]]
      | s :: rest => (c :: s) :: rest

/-- The directory components of a relative path. -/
def dirComponents (p : Str) : List Str := (splitOnChar '/' p).dropLast

theorem splitOnChar_ne_nil (sep : Char) : ∀ s : Str, splitOnChar sep s ≠ []
  | [] => by simp [splitOnChar]
  | c :: cs => by
    simp only [splitOnChar]
    split
    · simp
    · split <;> simp

theorem splitOnChar_sepFree (sep : Char) :
    ∀ s : Str, (∀ c ∈ s, c ≠ sep) → splitOnChar sep s = [s]
  | [] => fun _ => rfl
  | c :: cs => by
    intro h
    have hc : c ≠ sep := h c (by simp)
    simp only [splitOnChar, if_neg hc]
    rw [splitOnChar_sepFree sep cs (fun x hx => h x (by simp [hx]))]

theorem splitOnChar_append_sep (sep : Char) :
    ∀ p t : Str, (∀ c ∈ p, c ≠ sep) →
      splitOnChar sep (p ++ sep :: t) = p :: splitOnChar sep t
  | [], t => by
    intro _
    simp [splitOnChar]
  | c :: p, t => by
    intro h
    have hc : c ≠ sep := h c (by simp)
    have ih := splitOnChar_append_sep sep p t (fun x hx => h x (by simp [hx]))
    simp only [List.cons_append, splitOnChar, if_neg hc]
    rw [List.append_eq, ih]

theorem splitOnChar_pathJoin :
    ∀ comps : List Str, comps ≠ [] → (∀ p ∈ comps, noSlash p = true) →
      splitOnChar '/' (pathJoin comps) = comps
  | [], h, _ => absurd rfl h
  | [x], _, hall => by
    have hx : ∀ c ∈ x, c ≠ '/' := by
      have := hall x (by simp)
      simpa [noSlash, List.all_eq_true] using this
    simp only [pathJoin]
    exact splitOnChar_sepFree '/' x hx
  | x :: y :: xs, _, hall => by
    have hx : ∀ c ∈ x, c ≠ '/' := by
      have := hall x (by simp)
      simpa [noSlash, List.all_eq_true] using this
    have ih := splitOnChar_pathJoin (y :: xs) (by simp)
      (fun p hp => hall p (by simp [hp]))
    simp only [pathJoin]
    rw [splitOnChar_append_sep '/' x _ hx, ih]

/-- Shape of every record the walk emits below prefix `pfx`: its path is the
prefix, then directory components that all escaped the exclusion set, then
the separator-free filename. -/
def walkShape (sd : List Str) (pfx : List Str) (r : FileRecord) : Prop :=
  ∃ ds fname, (∀ c ∈ ds, c ∉ sd) ∧ (∀ c ∈ ds, noSlash c = true) ∧ noSlash fname = true ∧
    r.path = pathJoin (pfx ++ (ds ++ [fname]))

theorem walk_shape (sd se : List Str) :
    (∀ t, ∀ pfx r, wfTree t = true → r ∈ walkTree sd se pfx t → walkShape sd pfx r) ∧
    (∀ subs, ∀ pfx r, wfSubs subs = true → r ∈ walkSubs sd se pfx subs → walkShape sd pfx r) := by
  refine FSTree.indPair
    (fun t => ∀ pfx r, wfTree t = true → r ∈ walkTree sd se pfx t → walkShape sd pfx r)
    (fun subs => ∀ pfx r, wfSubs subs = true → r ∈ walkSubs sd se pfx subs → walkShape sd pfx r)
    ?_ ?_ ?_
  · intro files subs ihL pfx r hwf hr
    rw [walkTree] at hr
    have hwf' : files.all (fun f => noSlash f.name) = true ∧ wfSubs subs = true := by
      rw [wfTree] at hwf
      exact Bool.and_eq_true_iff.mp hwf
    rcases List.mem_append.mp hr with hmem | hmem
    · rcases List.mem_filterMap.mp hmem with ⟨f, hf, hfr⟩
      have hshape := fileRecord_some_elim se pfx f r hfr
      refine ⟨[], f.name, by simp, by simp, ?_, by simpa using hshape.1⟩
      exact (List.all_eq_true.mp hwf'.1) f hf
    · exact ihL pfx r hwf'.2 hmem
  · intro pfx r _ hr
    rw [walkSubs] at hr
    exact absurd hr (by simp)
  · intro d t rest ihT ihL pfx r hwf hr
    rw [walkSubs] at hr
    have hwf' : noSlash d = true ∧ wfTree t = true ∧ wfSubs rest = true := by
      rw [wfSubs] at hwf
      rcases Bool.and_eq_true_iff.mp hwf with ⟨h1, h2⟩
      rcases Bool.and_eq_true_iff.mp h1 with ⟨h3, h4⟩
      exact ⟨h3, h4, h2⟩
    rcases List.mem_append.mp hr with hmem | hmem
    · by_cases hd : d ∈ sd
      · rw [if_pos hd] at hmem
        exact absurd hmem (by simp)
      · rw [if_neg hd] at hmem
        rcases ihT (pfx ++ [d]) r hwf'.2.1 hmem with ⟨ds, fname, hds, hds2, hf, hpath⟩
        refine ⟨d :: ds, fname, ?_, ?_, hf, ?_⟩
        · intro c hc
          rcases List.mem_cons.mp hc with rfl | hc'
          · exact hd
          · exact hds c hc'
        · intro c hc
          rcases List.mem_cons.mp hc with rfl | hc'
          · exact hwf'.1
          · exact hds2 c hc'
        · rw [hpath]
          congr 1
          simp
    · exact ihL pfx r hwf'.2.2 hmem

/-- C1: for every root directory and exclusion set, no file located beneath
a directory whose name is in the excluded-directory set (at any depth,
including files inside non-excluded directories nested within an excluded
one) appears in the `FileRecord` list returned by `get_file_info`: every
directory component of every returned record's relative path is outside the
excluded set. -/
theorem C1_no_file_beneath_excluded_dir (sd se : List Str) (t : FSTree) (r : FileRecord)
    (hwf : wfTree t = true) (hr : r ∈ get_file_info sd se t) :
    ∀ c ∈ dirComponents r.path, c ∉ sd := by
  rw [get_file_info, sortByLowerPath] at hr
  have hr' : r ∈ walkTree sd se [] t := (List.perm_insertionSort _ _).subset hr
  rcases (walk_shape sd se).1 t [] r hwf hr' with ⟨ds, fname, hds, hds2, hf, hpath⟩
  intro c hc
  rw [hpath, List.nil_append, dirComponents,
    splitOnChar_pathJoin (ds ++ [fname]) (by simp) ?hall, List.dropLast_concat] at hc
  case hall =>
    intro p hp
    rcases List.mem_append.mp hp with hp' | hp'
    · exact hds2 p hp'
    · rw [List.mem_singleton.mp hp']
      exact hf
  exact hds c hc

def fileAW : FileEnt := ⟨"a.py".data, some 10, some "x\n".data⟩

def treeW1 : FSTree := .node [] [("src".data, .node [fileAW] [])]

def recW1 : FileRecord := ⟨"src/a.py".data, 1, mkRat 10 1024, "py".data⟩

theorem C1_no_file_beneath_excluded_dir_witness :
    "src".data ∉ DEFAULT_SKIP_DIRS :=
  C1_no_file_beneath_excluded_dir DEFAULT_SKIP_DIRS DEFAULT_SKIP_EXTENSIONS treeW1 recW1
    (by decide) (by decide) "src".data (by decide)

theorem mem_walkSubs_of_mem (sd se : List Str) (pfx : List Str) (d : Str) (sub : FSTree)
    (r : FileRecord) (hd : d ∉ sd) (hr : r ∈ walkTree sd se (pfx ++ [d]) sub) :
    ∀ subs : List (Str × FSTree), (d, sub) ∈ subs → r ∈ walkSubs sd se pfx subs
  | [], hmem => absurd hmem (by simp)
  | (d', t') :: rest, hmem => by
    rw [walkSubs]
    rcases List.mem_cons.mp hmem with heq | hmem'
    · rw [List.mem_append]
      left
      injection heq with h1 h2
      subst h1
      subst h2
      rw [if_neg hd]
      exact hr
    · rw [List.mem_append]
      right
      exact mem_walkSubs_of_mem sd se pfx d sub r hd hr rest hmem'

/-- C10: directory exclusion compares subdirectory names by case-sensitive
exact equality.  A directory whose name is not literally in the excluded
set — even one that differs from an excluded name only in letter case, i.e.
whose lowering is among the lowered excluded names — is still traversed,
and records found beneath it appear in the output of `get_file_info`. -/
theorem C10_dir_exclusion_case_sensitive (sd se : List Str) (files : List FileEnt)
    (subs : List (Str × FSTree)) (d : Str) (sub : FSTree) (r : FileRecord)
    (hmem : (d, sub) ∈ subs) (hd : d ∉ sd) (_hcase : lowerStr d ∈ sd.map lowerStr)
    (hr : r ∈ walkTree sd se [d] sub) :
    r ∈ get_file_info sd se (.node files subs) := by
  rw [get_file_info, sortByLowerPath]
  refine (List.perm_insertionSort _ _).symm.subset ?_
  rw [walkTree, List.mem_append]
  right
  exact mem_walkSubs_of_mem sd se [] d sub r hd hr subs hmem

def fileCW : FileEnt := ⟨"c.py".data, some 4, some "a\nb\n".data⟩

def subW : FSTree := .node [fileCW] []

def treeW2 : FSTree := .node [] [("Node_Modules".data, subW)]

def recW2 : FileRecord := ⟨"Node_Modules/c.py".data, 2, mkRat 4 1024, "py".data⟩

theorem C10_dir_exclusion_case_sensitive_witness :
    recW2 ∈ get_file_info DEFAULT_SKIP_DIRS DEFAULT_SKIP_EXTENSIONS treeW2 :=
  C10_dir_exclusion_case_sensitive DEFAULT_SKIP_DIRS DEFAULT_SKIP_EXTENSIONS []
    [("Node_Modules".data, subW)] "Node_Modules".data subW recW2
    (List.mem_cons_self _ _) (by decide) (by decide) (by decide)

/-- The spec's phrase for C2 taken literally: the number of line-terminated
segments of the text, i.e. the number of newline characters. -/
def lineTerminatedSegments (t : Str) : Nat := t.count '\n'

/-- The per-file line count C2 claims: line-terminated segments on success,
0 on failure. -/
def claimedCountLines (f : FileEnt) : Nat :=
  match f.text with
  | none => 0
  | some t => lineTerminatedSegments t

/-- A readable file whose text is `"a"`: one unterminated segment, no
line-terminated segment. -/
def fileNoNewline : FileEnt := ⟨"a.txt".data, some 1, some ['a']⟩

/-- C2 as stated is false: on a file whose text does not end with a newline,
`count_lines` counts the final unterminated segment as a line, so it returns
1 where the number of line-terminated segments is 0. -/
theorem C2_count_lines_counterexample :
    count_lines fileNoNewline = 1 ∧ claimedCountLines fileNoNewline = 0 ∧
      count_lines fileNoNewline ≠ claimedCountLines fileNoNewline := by
  decide

/-- The amended per-file line count: newline-terminated segments, plus one
more when the text is nonempty and does not end with a newline; 0 on
failure. -/
def amendedCountLines (f : FileEnt) : Nat :=
  match f.text with
  | none => 0
  | some t =>
    lineTerminatedSegments t + (if t = [] ∨ t.getLast? = some '\n' then 0 else 1)

theorem pyLineCount_eq : ∀ t : Str,
    pyLineCount t = t.count '\n' + (if t = [] ∨ t.getLast? = some '\n' then 0 else 1)
  | [] => rfl
  | [c] => by
    by_cases hc : c = '\n' <;> simp [pyLineCount, hc, List.count_cons]
  | c :: b :: cs => by
    have ih := pyLineCount_eq (b :: cs)
    have hlast : (c :: b :: cs).getLast? = (b :: cs).getLast? := List.getLast?_cons_cons
    rw [pyLineCount, ih]
    by_cases hc : c = '\n' <;> by_cases hl : (b :: cs).getLast? = some '\n' <;>
      simp [hc, hl, hlast, List.count_cons] <;> omega

/-- C2 amended: `count_lines` returns the number of newline-terminated
segments of the decoded text plus one for a final unterminated segment when
the text does not end with a newline, and 0 whenever opening or reading the
file fails. -/
theorem C2_count_lines_amended (f : FileEnt) : count_lines f = amendedCountLines f := by
  unfold count_lines amendedCountLines lineTerminatedSegments
  cases f.text with
  | none => rfl
  | some t => exact pyLineCount_eq t

mutual

/-- Remove from the tree every file whose size probe fails. -/
def dropBadSizeT : FSTree → FSTree
  | .node files subs => .node (files.filter (fun f => f.size.isSome)) (dropBadSizeS subs)

/-- Remove size-probe failures below every subdirectory. -/
def dropBadSizeS : List (Str × FSTree) → List (Str × FSTree)
  | [] => []
  | (d, t) :: rest => (d, dropBadSizeT t) :: dropBadSizeS rest

end

theorem filterMap_fileRecord_filter_size (se : List Str) (pfx : List Str) :
    ∀ files : List FileEnt,
      (files.filter (fun f => f.size.isSome)).filterMap (fileRecord se pfx) =
        files.filterMap (fileRecord se pfx)
  | [] => rfl
  | f :: files => by
    have ih := filterMap_fileRecord_filter_size se pfx files
    rw [List.filter_cons]
    by_cases hs : f.size.isSome
    · rw [if_pos (by simpa using hs), List.filterMap_cons, List.filterMap_cons, ih]
    · have hnone : f.size = none := Option.not_isSome_iff_eq_none.mp hs
      rw [if_neg (by simpa using hs), List.filterMap_cons,
        fileRecord_eq_none_of_size_none se pfx f hnone, ih]

theorem walkTree_dropBadSize (sd se : List Str) :
    (∀ t, ∀ pfx, walkTree sd se pfx (dropBadSizeT t) = walkTree sd se pfx t) ∧
    (∀ subs, ∀ pfx, walkSubs sd se pfx (dropBadSizeS subs) = walkSubs sd se pfx subs) := by
  refine FSTree.indPair
    (fun t => ∀ pfx, walkTree sd se pfx (dropBadSizeT t) = walkTree sd se pfx t)
    (fun subs => ∀ pfx, walkSubs sd se pfx (dropBadSizeS subs) = walkSubs sd se pfx subs)
    ?_ ?_ ?_
  · intro files subs ihL pfx
    rw [dropBadSizeT, walkTree, walkTree, ihL pfx, filterMap_fileRecord_filter_size]
  · intro _
    rfl
  · intro d t rest ihT ihL pfx
    rw [dropBadSizeS, walkSubs, walkSubs, ihL pfx, ihT (pfx ++ [d])]

/-- C3: a file whose size probe fails is dropped entirely — removing all
such files from the tree leaves the output of `get_file_info` unchanged,
and the per-file handler emits nothing for them — while a file whose read
fails (line-count failure) still yields a record, with `lines = 0`. -/
theorem C3_size_probe_failure_drops_file (sd se : List Str) (t : FSTree)
    (pfx : List Str) (f : FileEnt) :
    get_file_info sd se (dropBadSizeT t) = get_file_info sd se t ∧
    (f.size = none → fileRecord se pfx f = none) ∧
    (f.text = none → ∀ r, fileRecord se pfx f = some r → r.lines = 0) ∧
    (f.text = none → ∀ sz, f.size = some sz → ¬ rejectFile se f →
      ∃ r, fileRecord se pfx f = some r ∧ r.lines = 0) := by
  refine ⟨?_, ?_, ?_, ?_⟩
  · rw [get_file_info, get_file_info, (walkTree_dropBadSize sd se).1 t []]
  · exact fileRecord_eq_none_of_size_none se pfx f
  · intro htext r hr
    have h := (fileRecord_some_elim se pfx f r hr).2.1
    rw [h, count_lines, htext]
  · intro htext sz hsz hrej
    refine ⟨_, fileRecord_accept se pfx f sz hsz hrej, ?_⟩
    rw [count_lines, htext]

/-- A file that is accepted by the name and extension filters, has a size,
but cannot be read. -/
def fileUnreadable : FileEnt := ⟨"locked.py".data, some 100, none⟩

theorem C3_size_probe_failure_drops_file_witness :
    fileRecord DEFAULT_SKIP_EXTENSIONS [] ⟨"gone.py".data, none, none⟩ = none ∧
    (∃ r, fileRecord DEFAULT_SKIP_EXTENSIONS [] fileUnreadable = some r ∧ r.lines = 0) :=
  ⟨(C3_size_probe_failure_drops_file DEFAULT_SKIP_DIRS DEFAULT_SKIP_EXTENSIONS
      (.node [] []) [] ⟨"gone.py".data, none, none⟩).2.1 rfl,
   (C3_size_probe_failure_drops_file DEFAULT_SKIP_DIRS DEFAULT_SKIP_EXTENSIONS
      (.node [] []) [] fileUnreadable).2.2.2 rfl 100 rfl (by decide)⟩

/-- C4: the full listing (the list `generate_markdown_table` renders, in
row order) is a permutation of the input sorted with line count descending
as primary key and case-insensitive path as ascending tie-break. -/
theorem C4_full_listing_sort_order (l : List FileRecord) :
    (sortedFull l).Perm l ∧
    (sortedFull l).Pairwise (fun a b =>
      b.lines < a.lines ∨
        (a.lines = b.lines ∧ lexLe (lowerStr a.path) (lowerStr b.path) = true)) := by
  constructor
  · exact List.perm_insertionSort _ l
  · have hs := List.sorted_insertionSort (fun a b => fullKeyLe a b = true) l
    refine List.Pairwise.imp ?_ hs
    intro a b hab
    unfold fullKeyLe at hab
    by_cases h : a.lines = b.lines
    · exact Or.inr ⟨h, by simpa [if_pos h] using hab⟩
    · exact Or.inl (of_decide_eq_true (by simpa [if_neg h] using hab))

/-- C5: the Top-N table shows the first `n` records of the input filtered
to `lines > 0` and stably sorted descending by `lines` alone, the Bottom-N
table the first `m` of the same filtered set stably sorted ascending; ties
keep their relative input order (the filter at any fixed line count is
unchanged by the sort), and no shown record has `lines = 0`. -/
theorem C5_top_bottom_selection (l : List FileRecord) (n m : Nat) :
    (topSorted (nonEmptyFiles l)).Perm (nonEmptyFiles l) ∧
    (topSorted (nonEmptyFiles l)).Pairwise (fun a b => b.lines ≤ a.lines) ∧
    (∀ k : Nat, (topSorted (nonEmptyFiles l)).filter (fun r => decide (r.lines = k)) =
      (nonEmptyFiles l).filter (fun r => decide (r.lines = k))) ∧
    (bottomSorted (nonEmptyFiles l)).Perm (nonEmptyFiles l) ∧
    (bottomSorted (nonEmptyFiles l)).Pairwise (fun a b => a.lines ≤ b.lines) ∧
    (∀ k : Nat, (bottomSorted (nonEmptyFiles l)).filter (fun r => decide (r.lines = k)) =
      (nonEmptyFiles l).filter (fun r => decide (r.lines = k))) ∧
    (∀ r ∈ (topSorted (nonEmptyFiles l)).take n, 0 < r.lines) ∧
    (∀ r ∈ (bottomSorted (nonEmptyFiles l)).take m, 0 < r.lines) := by
  have hmem : ∀ r ∈ nonEmptyFiles l, 0 < r.lines := by
    intro r hr
    have := (List.mem_filter.mp hr).2
    exact of_decide_eq_true this
  unfold topSorted bottomSorted
  refine ⟨List.perm_insertionSort _ _, ?_, ?_, List.perm_insertionSort _ _, ?_, ?_, ?_, ?_⟩
  · refine List.Pairwise.imp ?_
      (List.sorted_insertionSort (fun a b : FileRecord => decide (b.lines ≤ a.lines) = true)
        (nonEmptyFiles l))
    exact fun h => of_decide_eq_true h
  · intro k
    refine insertionSort_filter _ _ ?_ (nonEmptyFiles l)
    intro x y hx hy
    have hx' := of_decide_eq_true hx
    have hy' := of_decide_eq_true hy
    exact decide_eq_true (by omega)
  · refine List.Pairwise.imp ?_
      (List.sorted_insertionSort (fun a b : FileRecord => decide (a.lines ≤ b.lines) = true)
        (nonEmptyFiles l))
    exact fun h => of_decide_eq_true h
  · intro k
    refine insertionSort_filter _ _ ?_ (nonEmptyFiles l)
    intro x y hx hy
    have hx' := of_decide_eq_true hx
    have hy' := of_decide_eq_true hy
    exact decide_eq_true (by omega)
  · intro r hr
    exact hmem r ((List.perm_insertionSort _ _).subset (List.take_subset _ _ hr))
  · intro r hr
    exact hmem r ((List.perm_insertionSort _ _).subset (List.take_subset _ _ hr))

def recZeroW : FileRecord := ⟨"empty.py".data, 0, mkRat 0 1024, "py".data⟩

def recFiveW : FileRecord := ⟨"five.py".data, 5, mkRat 50 1024, "py".data⟩

def recTwoW : FileRecord := ⟨"two.py".data, 2, mkRat 20 1024, "py".data⟩

theorem C5_top_bottom_selection_witness :
    0 < recFiveW.lines ∧ 0 < recTwoW.lines :=
  ⟨(C5_top_bottom_selection [recZeroW, recFiveW, recTwoW] 1 1).2.2.2.2.2.2.1 recFiveW
      (by decide),
   (C5_top_bottom_selection [recZeroW, recFiveW, recTwoW] 2 1).2.2.2.2.2.2.2 recTwoW
      (by decide)⟩

/-- C6: a file that the walk encounters and whose size probe succeeds gets
a record exactly when its name does not start with `'.'`, is not one of the
sentinel names `desktop.ini` / `__init__.py`, and its extension lowered to
lowercase is not in the excluded-extension set. -/
theorem C6_per_file_acceptance (se : List Str) (pfx : List Str) (f : FileEnt)
    (h : f.size.isSome = true) :
    (fileRecord se pfx f).isSome = true ↔
      ¬ (f.name.head? = some '.' ∨ f.name = "desktop.ini".data ∨
         f.name = "__init__.py".data ∨ lowerStr (splitextExt f.name) ∈ se) := by
  rcases Option.isSome_iff_exists.mp h with ⟨sz, hsz⟩
  simpa [rejectFile] using fileRecord_eq_some_iff se pfx f sz hsz

theorem C6_per_file_acceptance_witness :
    (fileRecord DEFAULT_SKIP_EXTENSIONS [] ⟨"Report.MD".data, some 9, some "x\n".data⟩).isSome = true ↔
      ¬ (("Report.MD".data : Str).head? = some '.' ∨ ("Report.MD".data : Str) = "desktop.ini".data ∨
         ("Report.MD".data : Str) = "__init__.py".data ∨
         lowerStr (splitextExt "Report.MD".data) ∈ DEFAULT_SKIP_EXTENSIONS) :=
  C6_per_file_acceptance DEFAULT_SKIP_EXTENSIONS [] ⟨"Report.MD".data, some 9, some "x\n".data⟩
    (by decide)

/-- A table cell as it appears in a rendered row: the content padded by one
space on each side. -/
def spCell (s : Str) : Str := ' ' :: (s ++ [' '])

/-- The cells of a rendered row, split at the column separators. -/
def cellsOf (row : Str) : List Str := splitOnChar '|' row

/-- Whether a rendered row has a cell with exactly this content. -/
def hasCell (row content : Str) : Bool := decide (spCell content ∈ cellsOf row)

theorem ne_pipe_of_mem_digitsLEAux :
    ∀ fuel n : Nat, ∀ c ∈ digitsLEAux fuel n, c ≠ '|'
  | 0, _ => by simp [digitsLEAux]
  | fuel + 1, n => by
    intro c hc
    rw [digitsLEAux] at hc
    by_cases hn : n = 0
    · rw [if_pos hn] at hc
      exact absurd hc (by simp)
    · rw [if_neg hn] at hc
      rcases List.mem_cons.mp hc with rfl | hc'
      · have hlt : n % 10 < 10 := Nat.mod_lt _ (by decide)
        set k := n % 10 with hk
        interval_cases k <;> decide
      · exact ne_pipe_of_mem_digitsLEAux fuel (n / 10) c hc'

theorem ne_pipe_of_mem_digitsLE (n : Nat) : ∀ c ∈ digitsLE n, c ≠ '|' := by
  intro c hc
  rw [digitsLE] at hc
  by_cases hn : n = 0
  · rw [if_pos hn] at hc
    rcases List.mem_singleton.mp hc with rfl
    decide
  · rw [if_neg hn] at hc
    exact ne_pipe_of_mem_digitsLEAux (n + 1) n c hc

theorem mem_groupLE : ∀ l : List Char, ∀ c ∈ groupLE l, c ∈ l ∨ c = ','
  | [] => by simp [groupLE]
  | [d] => by simp [groupLE]
  | [d1, d2] => by simp [groupLE]
  | [d1, d2, d3] => by simp [groupLE]
  | d1 :: d2 :: d3 :: d4 :: rest => by
    intro c hc
    rw [groupLE] at hc
    rcases List.mem_cons.mp hc with rfl | hc
    · simp
    rcases List.mem_cons.mp hc with rfl | hc
    · simp
    rcases List.mem_cons.mp hc with rfl | hc
    · simp
    rcases List.mem_cons.mp hc with rfl | hc
    · right; rfl
    · rcases mem_groupLE (d4 :: rest) c hc with h | h
      · left
        rcases List.mem_cons.mp h with rfl | h'
        · simp
        · simp [h']
      · right; exact h

theorem ne_pipe_of_mem_natToStr (n : Nat) : ∀ c ∈ natToStr n, c ≠ '|' := by
  intro c hc
  exact ne_pipe_of_mem_digitsLE n c (List.mem_reverse.mp hc)

theorem ne_pipe_of_mem_formatCommas (n : Nat) : ∀ c ∈ formatCommas n, c ≠ '|' := by
  intro c hc
  rcases mem_groupLE (digitsLE n) c (List.mem_reverse.mp hc) with h | rfl
  · exact ne_pipe_of_mem_digitsLE n c h
  · decide

theorem ne_pipe_of_mem_format1f (q : ℚ) : ∀ c ∈ format1f q, c ≠ '|' := by
  intro c hc
  rw [format1f] at hc
  rcases List.mem_append.mp hc with h | h
  · exact ne_pipe_of_mem_natToStr _ c h
  · rcases List.mem_cons.mp h with rfl | h'
    · decide
    · exact ne_pipe_of_mem_natToStr _ c h'

theorem ne_pipe_of_mem_spCell (s : Str) (hs : ∀ x ∈ s, x ≠ '|') :
    ∀ x ∈ spCell s, x ≠ '|' := by
  intro x hx
  rw [spCell] at hx
  rcases List.mem_cons.mp hx with rfl | hx'
  · decide
  · rcases List.mem_append.mp hx' with h | h
    · exact hs x h
    · rcases List.mem_singleton.mp h with rfl
      decide

theorem ne_pipe_of_mem_backquote (s : Str) (hs : ∀ x ∈ s, x ≠ '|') :
    ∀ x ∈ backquote s, x ≠ '|' := by
  intro x hx
  rw [backquote] at hx
  rcases List.mem_append.mp hx with h | h
  · rcases List.mem_append.mp h with h' | h'
    · rcases (by simpa using h' : x = '`') with rfl
      decide
    · exact hs x h'
  · rcases (by simpa using h : x = '`') with rfl
    decide

theorem splitOnChar_cons_sep (sep : Char) (t : Str) :
    splitOnChar sep (sep :: t) = [] :: splitOnChar sep t := by
  simp [splitOnChar]

theorem cellsOf_four (c1 c2 c3 c4 : Str)
    (h1 : ∀ x ∈ c1, x ≠ '|') (h2 : ∀ x ∈ c2, x ≠ '|')
    (h3 : ∀ x ∈ c3, x ≠ '|') (h4 : ∀ x ∈ c4, x ≠ '|') :
    cellsOf ("| ".data ++ joinSep " | ".data [c1, c2, c3, c4] ++ " |".data) =
      [[], spCell c1, spCell c2, spCell c3, spCell c4, []] := by
  have key : "| ".data ++ joinSep " | ".data [c1, c2, c3, c4] ++ " |".data =
      '|' :: (spCell c1 ++ '|' :: (spCell c2 ++ '|' :: (spCell c3 ++ '|' ::
        (spCell c4 ++ '|' :: ([] : Str))))) := by
    show ['|', ' '] ++ joinSep [' ', '|', ' '] [c1, c2, c3, c4] ++ [' ', '|'] = _
    simp [joinSep, spCell, List.append_assoc]
  rw [cellsOf, key, splitOnChar_cons_sep,
    splitOnChar_append_sep '|' (spCell c1) _ (ne_pipe_of_mem_spCell c1 h1),
    splitOnChar_append_sep '|' (spCell c2) _ (ne_pipe_of_mem_spCell c2 h2),
    splitOnChar_append_sep '|' (spCell c3) _ (ne_pipe_of_mem_spCell c3 h3),
    splitOnChar_append_sep '|' (spCell c4) _ (ne_pipe_of_mem_spCell c4 h4)]
  rfl

theorem mdRow_eq_cells_form (r : FileRecord) :
    mdRow r = "| ".data ++ joinSep " | ".data
      [backquote r.path, r.ext, formatCommas r.lines, format1f r.size_kb] ++ " |".data := by
  have e0 : ("| `".data : Str) = ['|', ' ', '`'] := rfl
  have e1 : ("` | ".data : Str) = ['`', ' ', '|', ' '] := rfl
  have e2 : (" | ".data : Str) = [' ', '|', ' '] := rfl
  have e3 : (" |".data : Str) = [' ', '|'] := rfl
  have e4 : ("| ".data : Str) = ['|', ' '] := rfl
  have e5 : ("`".data : Str) = ['`'] := rfl
  simp [mdRow, joinSep, backquote, e0, e1, e2, e3, e4, e5, List.append_assoc]

theorem fileRow_eq_cells_form (i : Nat) (r : FileRecord) :
    fileRow true i r = "| ".data ++ joinSep " | ".data
      [natToStr i, backquote r.path, formatCommas r.lines, format1f r.size_kb] ++ " |".data :=
  rfl

theorem fileRowsFrom_get :
    ∀ (files : List FileRecord) (j i : Nat) (r : FileRecord), files.get? i = some r →
      (fileRowsFrom true j files).get? i = some (fileRow true (j + i) r)
  | [], j, i, r => by
    intro h
    simp at h
  | f :: fs, j, 0, r => by
    intro h
    have hf : f = r := by simpa using h
    subst hf
    simp [fileRowsFrom]
  | f :: fs, j, i + 1, r => by
    intro h
    rw [fileRowsFrom]
    have harith : j + (i + 1) = (j + 1) + i := by omega
    rw [harith]
    exact fileRowsFrom_get fs (j + 1) i r (by simpa using h)

/-- C7 amended: in every rendered data row the path appears backquoted, the
line count comma-grouped and the size with one decimal, each as one table
cell; the top/bottom rows (`generate_file_table` with rank) additionally
lead with the 1-based rank but have no extension cell, while the
full-listing rows (`generate_markdown_table`) do carry the extension as a
cell and have no rank. -/
theorem C7_row_rendering_amended (files : List FileRecord) (i : Nat) (r : FileRecord)
    (hp : ∀ x ∈ r.path, x ≠ '|') (he : ∀ x ∈ r.ext, x ≠ '|') :
    (files.get? i = some r →
      (fileTableLines files true).get? (i + 2) = some (fileRow true (1 + i) r)) ∧
    ((sortedFull files).get? i = some r →
      (mdTableLines files).get? (i + 2) = some (mdRow r)) ∧
    cellsOf (fileRow true (1 + i) r) =
      [[], spCell (natToStr (1 + i)), spCell (backquote r.path),
       spCell (formatCommas r.lines), spCell (format1f r.size_kb), []] ∧
    cellsOf (mdRow r) =
      [[], spCell (backquote r.path), spCell r.ext,
       spCell (formatCommas r.lines), spCell (format1f r.size_kb), []] := by
  refine ⟨?_, ?_, ?_, ?_⟩
  · intro h
    rw [fileTableLines]
    show (fileRowsFrom true 1 files).get? i = _
    exact fileRowsFrom_get files 1 i r h
  · intro h
    rw [mdTableLines]
    show ((sortedFull files).map mdRow).get? i = _
    rw [List.get?_eq_getElem?, List.getElem?_map, ← List.get?_eq_getElem?, h]
    rfl
  · rw [fileRow_eq_cells_form]
    exact cellsOf_four _ _ _ _ (ne_pipe_of_mem_natToStr _) (ne_pipe_of_mem_backquote _ hp)
      (ne_pipe_of_mem_formatCommas _) (ne_pipe_of_mem_format1f _)
  · rw [mdRow_eq_cells_form]
    exact cellsOf_four _ _ _ _ (ne_pipe_of_mem_backquote _ hp) he
      (ne_pipe_of_mem_formatCommas _) (ne_pipe_of_mem_format1f _)

def recC7 : FileRecord := ⟨"a.py".data, 5, mkRat 2048 1024, "py".data⟩

/-- C7 as stated is false for the top/bottom tables: their rows have no
extension cell.  Concretely, the first data row of the top table rendered
for a record with extension `py` — a row that is literally part of
`generate_top_files_table`'s output — has cells rank, path, lines and size
only, while the full-listing row for the same record does carry the
extension cell. -/
theorem C7_extension_cell_counterexample :
    generate_top_files_table [recC7] 10 = joinSep ['\n'] (fileTableLines [recC7] true) ∧
    (fileTableLines [recC7] true).get? 2 = some (fileRow true 1 recC7) ∧
    hasCell (fileRow true 1 recC7) recC7.ext = false ∧
    hasCell (mdRow recC7) recC7.ext = true := by
  decide

theorem C7_row_rendering_amended_witness :
    cellsOf (fileRow true 1 recC7) =
      [[], spCell (natToStr 1), spCell (backquote recC7.path),
       spCell (formatCommas recC7.lines), spCell (format1f recC7.size_kb), []] :=
  (C7_row_rendering_amended [recC7] 0 recC7 (by decide) (by decide)).2.2.1

/-- C8: when the resolved root path is not a directory, or when no files
qualify, `main` prints the corresponding human-readable error and returns
without writing an output file. -/
theorem C8_main_error_paths (t : FSTree) (sp op : Str) (n : Nat) (w : Bool) :
    mainModel false t sp op n w =
      (["Error: '".data ++ sp ++ "' is not a valid directory.".data], none) ∧
    (get_file_info DEFAULT_SKIP_DIRS DEFAULT_SKIP_EXTENSIONS t = [] →
      mainModel true t sp op n w =
        (["Analyzing files in: ".data ++ sp ++ "...".data,
          "No files found matching the criteria. Report not generated.".data], none)) := by
  constructor
  · rfl
  · intro h
    simp [mainModel, h]

theorem C8_main_error_paths_witness :
    mainModel false (.node [] []) "/r".data "LINE_COUNT.md".data 10 true =
      (["Error: '".data ++ "/r".data ++ "' is not a valid directory.".data], none) ∧
    mainModel true (.node [] []) "/r".data "LINE_COUNT.md".data 10 true =
      (["Analyzing files in: ".data ++ "/r".data ++ "...".data,
        "No files found matching the criteria. Report not generated.".data], none) :=
  ⟨(C8_main_error_paths (.node [] []) "/r".data "LINE_COUNT.md".data 10 true).1,
   (C8_main_error_paths (.node [] []) "/r".data "LINE_COUNT.md".data 10 true).2 (by decide)⟩

def fA9 : FileEnt := ⟨"A.py".data, some 2, some "x\n".data⟩

def fa9 : FileEnt := ⟨"a.py".data, some 2, some "y\n".data⟩

def t9L : FSTree := .node [fA9, fa9] []

def t9R : FSTree := .node [fa9, fA9] []

set_option maxRecDepth 100000 in
/-- C9 as stated is false: two trees with identical contents that differ
only in the order the directory listing yields the files (modelled by the
two orders of the same two files, a nondeterminism `os.walk` inherits from
the OS) can produce different report bytes.  With files `A.py` and `a.py`
of equal line count, every sort key ties, the stable sorts keep the listing
order, and the rendered tables differ. -/
theorem C9_report_order_counterexample :
    (walkTree DEFAULT_SKIP_DIRS DEFAULT_SKIP_EXTENSIONS [] t9L).Perm
      (walkTree DEFAULT_SKIP_DIRS DEFAULT_SKIP_EXTENSIONS [] t9R) ∧
    generate_report "/r".data (get_file_info DEFAULT_SKIP_DIRS DEFAULT_SKIP_EXTENSIONS t9L) 10 ≠
      generate_report "/r".data (get_file_info DEFAULT_SKIP_DIRS DEFAULT_SKIP_EXTENSIONS t9R) 10 := by
  decide

/-- C9 amended: provided no two accepted files have case-insensitively
equal relative paths, the report is a deterministic function of the tree
contents (it is invariant under the enumeration order: any two trees whose
walks yield the same records as a multiset give byte-identical reports)
and of the declared root path. -/
theorem C9_report_deterministic_amended (sd se : List Str) (t₁ t₂ : FSTree) (root : Str)
    (n : Nat)
    (hperm : (walkTree sd se [] t₁).Perm (walkTree sd se [] t₂))
    (hnodup : ((walkTree sd se [] t₁).map (fun r => lowerStr r.path)).Nodup) :
    generate_report root (get_file_info sd se t₁) n =
      generate_report root (get_file_info sd se t₂) n := by
  have key : get_file_info sd se t₁ = get_file_info sd se t₂ := by
    rw [get_file_info, get_file_info, sortByLowerPath, sortByLowerPath]
    refine sorted_perm_eq_of_nodup_keys (fun r => lowerStr r.path) lexLe lexLe_antisymm _ _
      ?_ ?_ ?_ ?_
    · exact (List.perm_insertionSort _ _).trans
        (hperm.trans (List.perm_insertionSort _ _).symm)
    · exact List.sorted_insertionSort _ _
    · exact List.sorted_insertionSort _ _
    · exact (((List.perm_insertionSort _ _).map _).nodup_iff).mpr hnodup
  rw [key]

def fb9 : FileEnt := ⟨"b.py".data, some 2, some "x\n".data⟩

def t9W1 : FSTree := .node [fa9, fb9] []

def t9W2 : FSTree := .node [fb9, fa9] []

theorem C9_report_deterministic_amended_witness :
    generate_report "/r".data (get_file_info DEFAULT_SKIP_DIRS DEFAULT_SKIP_EXTENSIONS t9W1) 10 =
      generate_report "/r".data (get_file_info DEFAULT_SKIP_DIRS DEFAULT_SKIP_EXTENSIONS t9W2) 10 :=
  C9_report_deterministic_amended DEFAULT_SKIP_DIRS DEFAULT_SKIP_EXTENSIONS t9W1 t9W2
    "/r".data 10 (by decide) (by decide)
